import Mathlib

/-!
Shallow embedding of the bacteria-client front end (two near-duplicate React
variants: `src/src/App.tsx` and the two revisions inside `src/unnamed/part_000`).
The embedding models the parsed spreadsheet rows, the group-inference pipeline
(`extractGroups`), the session-state updates performed by the event handlers
(`handleFileChange`, `handleClean`, category switch, `handleCreateChart`,
`handleAskBE`, `handleDownload`), and the outcome of the network call as an
explicit input.  Theorems at the end settle the frozen claims C1-C10.
-/

namespace Bacteria

/-- A spreadsheet cell value as produced by the sheet-to-JSON conversion:
a string, a number (modelled as an integer), or absent (the property is
missing from the row object). -/
inductive Cell where
  | str (s : String)
  | num (n : Int)
  | absent
deriving DecidableEq, Repr

/-- A parsed row: an ordered association of column header to cell value,
mirroring a JavaScript object's insertion-ordered keys. -/
abbrev Row := List (String × Cell)

/-- JavaScript truthiness of a cell value; `filter(Boolean)` keeps exactly the
truthy cells (non-empty strings and non-zero numbers). -/
def Cell.truthy : Cell → Bool
  | .str s => decide (s ≠ "")
  | .num n => decide (n ≠ 0)
  | .absent => false

/-- The string a cell turns into when used as a JavaScript object key
(`initialColors[option] = ...` coerces the key to a string). -/
def Cell.key : Cell → String
  | .str s => s
  | .num n => toString n
  | .absent => "undefined"

/-- JavaScript string interpolation of a possibly-missing string field:
template literals render `undefined` as the text "undefined". -/
def jsShow : Option String → String
  | some s => s
  | none => "undefined"

/-- Property access `row[key]`: the first binding for `key`, or absent. -/
def rowLookup (row : Row) (key : String) : Cell :=
  match row.find? (fun p => decide (p.fst = key)) with
  | some p => p.snd
  | none => .absent

/-- A JavaScript property access with a possibly-undefined key coerces the
missing key to the string "undefined". -/
def jsKeyOf : Option String → String
  | some c => c
  | none => "undefined"

/-- The fixed candidate list of grouping-column names from `extractGroups`. -/
def groupCandidates : List String :=
  ["group", "taxon name", "wavelength (nm)", "wavelength", "compound", "sample"]

/-- ASCII lowercasing of a string, character by character; the embedding of
JavaScript's `toLowerCase()` on the headers that occur here. -/
def jsToLower (s : String) : String :=
  String.mk (s.data.map Char.toLower)

/-- The lowercased copies of the headers (`availableColumns.map(col => col.toLowerCase())`). -/
def normalizedOf (cols : List String) : List String :=
  cols.map (fun col => jsToLower col)

/-- JavaScript `Array.prototype.find` where the callback only consults the
element's index (the source callback reads `normalizedColumns[idx]`). -/
def jsFind (cb : Nat → Bool) : List String → Nat → Option String
  | [], _ => none
  | x :: xs, i => if cb i then some x else jsFind cb xs (i + 1)

/-- The candidate scan from `extractGroups`:
`availableColumns.find((col, idx) => groupCandidates.includes(normalizedColumns[idx]))`. -/
def findSelectedColumn (cols : List String) : Option String :=
  jsFind (fun idx => groupCandidates.contains ((normalizedOf cols).getD idx "")) cols 0

/-- The grouping column chosen by `extractGroups` from the first row's headers,
with the fallback `selectedColumn = availableColumns[0]` (which can still be
undefined when the first row has no keys). -/
def selectedColumnOf (jsonData : List Row) : Option String :=
  let firstRow := jsonData.headD []
  let availableColumns := firstRow.map Prod.fst
  match findSelectedColumn availableColumns with
  | some c => some c
  | none => availableColumns.head?

/-- The selected column's value taken from every row and filtered for
truthiness: `jsonData.map(row => row[selectedColumn]).filter(Boolean)`. -/
def selectedValues (jsonData : List Row) : List Cell :=
  (jsonData.map (fun row => rowLookup row (jsKeyOf (selectedColumnOf jsonData)))).filter Cell.truthy

/-- Sequential insertion into a JavaScript `Set`: keep the first occurrence of
each value, in insertion order. -/
def setInsertAll {α : Type} [DecidableEq α] (acc : List α) : List α → List α
  | [] => acc
  | x :: xs => if x ∈ acc then setInsertAll acc xs else setInsertAll (acc ++ [x]) xs

/-- `Array.from(new Set(l))`: deduplication preserving first-seen order. -/
def jsSetDedup {α : Type} [DecidableEq α] (l : List α) : List α :=
  setInsertAll [] l

/-- The branch of `extractGroups` that computes `uniqueOptions` for the active
category: fixed overrides for four categories and `Correlations`, otherwise the
deduplicated truthy values of the selected column. -/
def computeUniqueOptions (selected : String) (jsonData : List Row) : List Cell :=
  if selected = "ControlVsFn" ∨ selected = "AlphaDiversity" ∨
      selected = "BetaDiversity" ∨ selected = "SMDI" then
    [Cell.str "Control", Cell.str "Fn"]
  else if selected = "Correlations" then
    [Cell.str "scatter", Cell.str "line"]
  else
    jsSetDedup (selectedValues jsonData)

/-- JavaScript object assignment `m[k] = v`: overwrite in place if the key
exists, otherwise append the new binding. -/
def objInsert (m : List (String × String)) (k v : String) : List (String × String) :=
  if m.any (fun p => decide (p.fst = k)) then
    m.map (fun p => if p.fst = k then (k, v) else p)
  else
    m ++ [(k, v)]

/-- The seeding loop of `extractGroups`:
`uniqueOptions.forEach(option => { initialColors[option] = '#000000' })`. -/
def seedColors (opts : List Cell) : List (String × String) :=
  List.foldl (fun m o => objInsert m (Cell.key o) "#000000") [] opts

/-- The session state of the `src/src/App.tsx` variant: selected category,
uploaded file (modelled by its parsed rows), result URL, error message,
inferred groups and the per-group color assignment. -/
structure SessionState where
  selected : String
  file : Option (List Row)
  imageUrl : Option String
  error : String
  groups : List Cell
  colors : List (String × String)
deriving DecidableEq, Repr

/-- The `extractGroups` state update: on an empty row set clear the groups and
return early (colors untouched); otherwise store the computed options and seed
one black color per option. -/
def extractGroups (s : SessionState) (jsonData : List Row) : SessionState :=
  if jsonData.length = 0 then
    { s with groups := [] }
  else
    let uniqueOptions := computeUniqueOptions s.selected jsonData
    { s with groups := uniqueOptions, colors := seedColors uniqueOptions }

/-- The upload handler `handleFileChange`: clear the error; when the change
event carries a file, store it and run `extractGroups` on its parsed rows. -/
def handleFileChange (s : SessionState) (picked : Option (List Row)) : SessionState :=
  let s1 := { s with error := "" }
  match picked with
  | none => s1
  | some rows => extractGroups { s1 with file := some rows } rows

/-- The clear action `handleClean`: reset file, result URL, error, groups and
colors (the category is untouched). -/
def handleClean (s : SessionState) : SessionState :=
  { s with file := none, imageUrl := none, error := "", groups := [], colors := [] }

/-- The category-switch button: `setSelected(type)` followed by `handleClean()`. -/
def switchCategory (s : SessionState) (t : String) : SessionState :=
  handleClean { s with selected := t }

/-- The outcome of one `fetch` call, made explicit: the promise rejects
(`netError`), or a response arrives with its `ok` flag and the result of
parsing its body as JSON (`none` when `res.json()` rejects). -/
inductive FetchResult (β : Type) where
  | netError
  | reply (ok : Bool) (body : Option β)
deriving DecidableEq, Repr

/-- The JSON body consumed by `handleCreateChart` and `handleAskBE`:
an optional `img` field. -/
structure RespBody where
  img : Option String
deriving DecidableEq, Repr

/-- The service origin of the `src/src/App.tsx` variant. -/
def serverBase : String := "https://bacteria-server.onrender.com"

/-- The generic error message stored by every catch block. -/
def genericErrorMsg : String := "ERROR: Maybe the file is wrong or data is missing?"

/-- The chart request of `src/src/App.tsx`: no-op without a file; a transport
error, a non-ok status (the thrown `HTTP error!`) or a body that fails to
parse all land in the catch block; otherwise the result URL is stored with a
cache-busting timestamp and the error is cleared. -/
def handleCreateChart (s : SessionState) (outcome : FetchResult RespBody)
    (now : Nat) : SessionState :=
  match s.file with
  | none => s
  | some _ =>
    match outcome with
    | .netError => { s with error := genericErrorMsg }
    | .reply ok body =>
      if ok then
        match body with
        | none => { s with error := genericErrorMsg }
        | some data =>
          { s with
              imageUrl := some (serverBase ++ jsShow data.img ++ "?t=" ++ toString now),
              error := "" }
      else { s with error := genericErrorMsg }

/-- The session state of the first (oldest) revision inside
`src/unnamed/part_000`, which has no groups, colors or loading flag. -/
structure OldState where
  selected : String
  hasFile : Bool
  imageUrl : Option String
  error : String
deriving DecidableEq, Repr

/-- The chart request `handleAskBE` of the oldest revision: it performs no
`res.ok` check, so any response whose body parses as JSON reaches
`setImageUrl`, whatever its status; only a transport error or a body that
fails to parse lands in the catch block.  The error field is not cleared on
the success path. -/
def handleAskBE (s : OldState) (outcome : FetchResult RespBody) : OldState :=
  if s.hasFile then
    match outcome with
    | .netError => { s with error := genericErrorMsg }
    | .reply _ body =>
      match body with
      | none => { s with error := genericErrorMsg }
      | some data => { s with imageUrl := some (serverBase ++ jsShow data.img) }
  else s

/-- The session state of the richest revision inside `src/unnamed/part_000`:
two result URLs (SVG and EMF), label overrides and a loading flag. -/
structure RichState where
  selected : String
  file : Option (List Row)
  imageSvgUrl : Option String
  imageEmfUrl : Option String
  error : String
  groups : List Cell
  colors : List (String × String)
  customTitle : String
  xLabel : String
  yLabel : String
  loading : Bool
deriving DecidableEq, Repr

/-- The JSON body consumed by the richest revision's `handleCreateChart`:
optional `img_svg` and `img_emf` fields. -/
structure RichBody where
  imgSvg : Option String
  imgEmf : Option String
deriving DecidableEq, Repr

/-- The service origin of the richest revision. -/
def serverBase2 : String := "https://bacteria-server-2.onrender.com"

/-- The richest revision's `handleCreateChart`: same try/catch shape as the
`src/src/App.tsx` one, with two result URLs, and a `finally` block that always
clears the loading flag once the call completes. -/
def handleCreateChartRich (s : RichState) (outcome : FetchResult RichBody)
    (now : Nat) : RichState :=
  match s.file with
  | none => s
  | some _ =>
    match outcome with
    | .netError => { s with error := genericErrorMsg, loading := false }
    | .reply ok body =>
      if ok then
        match body with
        | none => { s with error := genericErrorMsg, loading := false }
        | some data =>
          { s with
              imageSvgUrl := some (serverBase2 ++ jsShow data.imgSvg ++ "?t=" ++ toString now),
              imageEmfUrl := some (serverBase2 ++ jsShow data.imgEmf ++ "?t=" ++ toString now),
              error := "",
              loading := false }
      else { s with error := genericErrorMsg, loading := false }

/-- JavaScript `string.split(sep)` for a one-character separator, on the
character-list representation of the string: `"".split('.')` is `[""]`,
`"a."` splits into `["a", ""]`. -/
def jsSplit (sep : Char) : List Char → List (List Char)
  | [] => [[]]
  | c :: rest =>
    if c = sep then [] :: jsSplit sep rest
    else
      match jsSplit sep rest with
      | [] => [[c]]
      | p :: ps => (c :: p) :: ps

/-- The extension computed by the richest revision's `handleDownload`:
`file.split('.').pop() || 'svg'` — the piece after the last dot of the whole
URL, with "svg" substituted only when that piece is empty. -/
def downloadExtension (url : List Char) : List Char :=
  let last := (jsSplit '.' url).getLastD []
  if last = [] then "svg".toList else last

/-- The filename used by the richest revision's `handleDownload`:
`'chart.' + extension`. -/
def downloadFilename (url : List Char) : List Char :=
  "chart.".toList ++ downloadExtension url

/-- The richest revision's `handleDownload`: aborts on a falsy (empty) URL,
otherwise re-fetches the URL and saves it under the computed filename; the
returned value is the filename of the triggered save. -/
def handleDownloadRich (url : List Char) : Option (List Char) :=
  if url = [] then none else some (downloadFilename url)

/-- The `src/src/App.tsx` `handleDownload`: aborts without a result URL,
otherwise saves under the constant name `chart.svg`. -/
def handleDownloadSimple (imageUrl : Option String) : Option String :=
  match imageUrl with
  | none => none
  | some _ => some "chart.svg"

/-- Proof-side reformulation of first-seen deduplication: keep each head and
drop its later duplicates from the tail. -/
def insertionDedup {α : Type} [DecidableEq α] : List α → List α
  | [] => []
  | x :: xs => x :: insertionDedup (xs.filter (fun y => decide (y ≠ x)))
termination_by l => l.length
decreasing_by
  simp only [List.length_cons]
  exact Nat.lt_succ_of_le (List.length_filter_le _ _)

/-- Index of the first occurrence of `a` in `l` (the length of `l` when `a`
does not occur). -/
def firstIdx {α : Type} [DecidableEq α] (l : List α) (a : α) : Nat :=
  match l with
  | [] => 0
  | x :: xs => if x = a then 0 else firstIdx xs a + 1

/-- Modelled from the spec for claim C2: scan the headers in file order and
pick the first whose lowercased form is a member of the fixed candidate set;
if none matches, fall back to the first column in file order. -/
def specSelectedColumn (headers : List String) : Option String :=
  match headers.filter (fun c => groupCandidates.contains (jsToLower c)) with
  | [] => headers.head?
  | c :: _ => some c

/-- A fresh session at the given category, as created at process start. -/
def mkSession (cat : String) : SessionState :=
  { selected := cat, file := none, imageUrl := none, error := "",
    groups := [], colors := [] }

/-- A session carrying a stale ColorAssignment from an earlier inference. -/
def staleSession : SessionState :=
  { selected := "QLF", file := none, imageUrl := none, error := "",
    groups := [Cell.str "A"], colors := [("A", "#ff0000")] }

/-- A session still holding a result URL from an earlier request. -/
def resultSession : SessionState :=
  { selected := "QLF", file := none,
    imageUrl := some "https://bacteria-server.onrender.com/old.svg?t=1",
    error := "", groups := [], colors := [] }

/-- A session with a file present and no prior result or error. -/
def loadedSession : SessionState :=
  { selected := "QLF", file := some [[("Group", Cell.str "A")]],
    imageUrl := none, error := "", groups := [Cell.str "A"],
    colors := [("A", "#000000")] }

/-- Concrete rows with a duplicate and a falsy (empty) value. -/
def dupRows : List Row :=
  [[("Group", Cell.str "A")], [("Group", Cell.str "")], [("Group", Cell.str "B")],
    [("Group", Cell.str "A")]]

/-- Concrete rows with two distinct group values. -/
def pairRows : List Row :=
  [[("Group", Cell.str "A")], [("Group", Cell.str "B")]]

/-- The spec's example rows with headers `["Sample Name", "Value"]`. -/
def sampleNameRows : List Row :=
  [[("Sample Name", Cell.str "A"), ("Value", Cell.num 1)]]

/-- A rich-variant session with a file present and stored result URLs. -/
def richPriorState : RichState :=
  { selected := "QLF", file := some [[("Group", Cell.str "A")]],
    imageSvgUrl := some "https://bacteria-server-2.onrender.com/old.svg?t=1",
    imageEmfUrl := some "https://bacteria-server-2.onrender.com/old.emf?t=1",
    error := "", groups := [Cell.str "A"], colors := [("A", "#000000")],
    customTitle := "", xLabel := "", yLabel := "", loading := false }

/-- An old-variant session with a file present and no prior result or error. -/
def oldPriorState : OldState :=
  { selected := "QLF", hasFile := true, imageUrl := none, error := "" }

/-! ### Properties of first-seen deduplication -/

theorem firstIdx_cons_self {α : Type} [DecidableEq α] (xs : List α) (a : α) :
    firstIdx (a :: xs) a = 0 := by
  simp [firstIdx]

theorem firstIdx_cons_ne {α : Type} [DecidableEq α] (xs : List α) {x a : α}
    (h : x ≠ a) : firstIdx (x :: xs) a = firstIdx xs a + 1 := by
  simp [firstIdx, h]

theorem firstIdx_filter_lt {α : Type} [DecidableEq α] (p : α → Bool) :
    ∀ (l : List α) (a b : α), a ∈ l.filter p → b ∈ l.filter p →
      firstIdx (l.filter p) a < firstIdx (l.filter p) b → firstIdx l a < firstIdx l b := by
  intro l
  induction l with
  | nil => intro a b ha _ _; simp at ha
  | cons c t ih =>
    intro a b ha hb hlt
    by_cases hpc : p c
    · rw [List.filter_cons_of_pos hpc] at ha hb hlt
      by_cases hac : c = a
      · subst hac
        have hbc : c ≠ b := by
          intro hcb
          subst hcb
          rw [firstIdx_cons_self] at hlt
          exact absurd hlt (by omega)
        rw [firstIdx_cons_self]
        rw [firstIdx_cons_ne t hbc]
        omega
      · have ha' : a ∈ t.filter p := by
          rcases List.mem_cons.mp ha with h | h
          · exact absurd h.symm hac
          · exact h
        by_cases hbc : c = b
        · subst hbc
          rw [firstIdx_cons_ne _ hac, firstIdx_cons_self] at hlt
          omega
        · have hb' : b ∈ t.filter p := by
            rcases List.mem_cons.mp hb with h | h
            · exact absurd h.symm hbc
            · exact h
          rw [firstIdx_cons_ne _ hac, firstIdx_cons_ne _ hbc] at hlt
          have := ih a b ha' hb' (by omega)
          rw [firstIdx_cons_ne t hac, firstIdx_cons_ne t hbc]
          omega
    · rw [List.filter_cons_of_neg (by simpa using hpc)] at ha hb hlt
      have hpa : p a := (List.mem_filter.mp ha).2
      have hpb : p b := (List.mem_filter.mp hb).2
      have hac : c ≠ a := fun h => hpc (h ▸ hpa)
      have hbc : c ≠ b := fun h => hpc (h ▸ hpb)
      have := ih a b ha hb hlt
      rw [firstIdx_cons_ne t hac, firstIdx_cons_ne t hbc]
      omega

theorem insertionDedup_mem {α : Type} [DecidableEq α] :
    ∀ (l : List α) (a : α), a ∈ insertionDedup l ↔ a ∈ l
  | [], a => by simp [insertionDedup]
  | x :: xs, a => by
    rw [show insertionDedup (x :: xs)
        = x :: insertionDedup (xs.filter (fun y => decide (y ≠ x))) from by
      simp [insertionDedup]]
    by_cases hax : a = x
    · subst hax; simp
    · simp only [List.mem_cons]
      rw [insertionDedup_mem (xs.filter (fun y => decide (y ≠ x))) a]
      simp [List.mem_filter, hax]
termination_by l _ => l.length
decreasing_by
  simp only [List.length_cons]
  exact Nat.lt_succ_of_le (List.length_filter_le _ _)

theorem insertionDedup_nodup {α : Type} [DecidableEq α] :
    ∀ l : List α, (insertionDedup l).Nodup
  | [] => by simp [insertionDedup]
  | x :: xs => by
    rw [show insertionDedup (x :: xs)
        = x :: insertionDedup (xs.filter (fun y => decide (y ≠ x))) from by
      simp [insertionDedup]]
    refine List.nodup_cons.mpr ⟨?_, insertionDedup_nodup _⟩
    intro hmem
    have hx := (insertionDedup_mem _ x).mp hmem
    have := (List.mem_filter.mp hx).2
    simp at this
termination_by l => l.length
decreasing_by
  simp only [List.length_cons]
  exact Nat.lt_succ_of_le (List.length_filter_le _ _)

theorem insertionDedup_pairwise {α : Type} [DecidableEq α] :
    ∀ l : List α,
      (insertionDedup l).Pairwise (fun a b => firstIdx l a < firstIdx l b)
  | [] => by simp [insertionDedup]
  | x :: xs => by
    rw [show insertionDedup (x :: xs)
        = x :: insertionDedup (xs.filter (fun y => decide (y ≠ x))) from by
      simp [insertionDedup]]
    refine List.pairwise_cons.mpr ⟨?_, ?_⟩
    · intro b hb
      have hbf := (insertionDedup_mem _ b).mp hb
      have hbx : b ≠ x := by
        have := (List.mem_filter.mp hbf).2
        simpa using this
      rw [firstIdx_cons_self, firstIdx_cons_ne xs (Ne.symm hbx)]
      omega
    · have ih := insertionDedup_pairwise (xs.filter (fun y => decide (y ≠ x)))
      refine ih.imp_of_mem ?_
      intro a b ha hb hab
      have haf := (insertionDedup_mem _ a).mp ha
      have hbf := (insertionDedup_mem _ b).mp hb
      have hax : a ≠ x := by have := (List.mem_filter.mp haf).2; simpa using this
      have hbx : b ≠ x := by have := (List.mem_filter.mp hbf).2; simpa using this
      have := firstIdx_filter_lt _ xs a b haf hbf hab
      rw [firstIdx_cons_ne xs (Ne.symm hax), firstIdx_cons_ne xs (Ne.symm hbx)]
      omega
termination_by l => l.length
decreasing_by
  simp only [List.length_cons]
  exact Nat.lt_succ_of_le (List.length_filter_le _ _)

theorem setInsertAll_eq {α : Type} [DecidableEq α] :
    ∀ (l acc : List α),
      setInsertAll acc l = acc ++ insertionDedup (l.filter (fun y => decide (y ∉ acc))) := by
  intro l
  induction l with
  | nil => intro acc; simp [setInsertAll, insertionDedup]
  | cons x xs ih =>
    intro acc
    by_cases hx : x ∈ acc
    · rw [show setInsertAll acc (x :: xs) = setInsertAll acc xs from by
        simp [setInsertAll, hx]]
      rw [ih acc]
      rw [List.filter_cons_of_neg (by simp [hx])]
    · rw [show setInsertAll acc (x :: xs) = setInsertAll (acc ++ [x]) xs from by
        simp [setInsertAll, hx]]
      rw [ih (acc ++ [x])]
      rw [List.filter_cons_of_pos (by simp [hx])]
      rw [show insertionDedup (x :: xs.filter (fun y => decide (y ∉ acc)))
          = x :: insertionDedup ((xs.filter (fun y => decide (y ∉ acc))).filter
              (fun y => decide (y ≠ x))) from by
        simp [insertionDedup]]
      rw [List.filter_filter]
      have hff : xs.filter (fun y => decide (y ∉ acc ++ [x]))
          = xs.filter (fun a => decide (a ≠ x) && decide (a ∉ acc)) := by
        apply List.filter_congr
        intro a _
        by_cases h1 : a ∈ acc <;> by_cases h2 : a = x <;> simp [h1, h2]
      rw [hff]
      simp

theorem jsSetDedup_eq {α : Type} [DecidableEq α] (l : List α) :
    jsSetDedup l = insertionDedup l := by
  unfold jsSetDedup
  rw [setInsertAll_eq]
  have hl : l.filter (fun y => decide (y ∉ ([] : List α))) = l := by
    apply List.filter_eq_self.mpr
    intro a _
    simp
  rw [hl]
  rfl

theorem jsSetDedup_nodup {α : Type} [DecidableEq α] (l : List α) :
    (jsSetDedup l).Nodup := by
  rw [jsSetDedup_eq]; exact insertionDedup_nodup l

theorem jsSetDedup_mem {α : Type} [DecidableEq α] (l : List α) (a : α) :
    a ∈ jsSetDedup l ↔ a ∈ l := by
  rw [jsSetDedup_eq]; exact insertionDedup_mem l a

theorem jsSetDedup_pairwise {α : Type} [DecidableEq α] (l : List α) :
    (jsSetDedup l).Pairwise (fun a b => firstIdx l a < firstIdx l b) := by
  rw [jsSetDedup_eq]; exact insertionDedup_pairwise l

/-! ### The column scan agrees with a filter-based description -/

theorem find?_eq_head?_filter {α : Type} (p : α → Bool) :
    ∀ l : List α, l.find? p = (l.filter p).head? := by
  intro l
  induction l with
  | nil => simp
  | cons x xs ih =>
    by_cases hx : p x
    · rw [List.find?_cons_of_pos _ hx, List.filter_cons_of_pos hx]
      rfl
    · rw [List.find?_cons_of_neg _ (by simpa using hx),
        List.filter_cons_of_neg (by simpa using hx)]
      exact ih

theorem getD_append_len {β : Type} :
    ∀ (xs : List β) (y : β) (ys : List β) (d : β),
      (xs ++ y :: ys).getD xs.length d = y := by
  intro xs
  induction xs with
  | nil => intro y ys d; rfl
  | cons a t ih => intro y ys d; simpa using ih y ys d

theorem jsFind_spec (q : String → Bool) :
    ∀ (cols pre : List String),
      jsFind (fun idx => q ((normalizedOf (pre ++ cols)).getD idx "")) cols pre.length
        = cols.find? (fun c => q (jsToLower c)) := by
  intro cols
  induction cols with
  | nil => intro pre; rfl
  | cons c cs ih =>
    intro pre
    have hcb : (normalizedOf (pre ++ c :: cs)).getD pre.length "" = jsToLower c := by
      unfold normalizedOf
      rw [List.map_append, List.map_cons]
      rw [show pre.length = (pre.map (fun col => jsToLower col)).length from
        (List.length_map pre _).symm]
      exact getD_append_len _ _ _ _
    rw [show jsFind (fun idx => q ((normalizedOf (pre ++ c :: cs)).getD idx ""))
          (c :: cs) pre.length
        = if q ((normalizedOf (pre ++ c :: cs)).getD pre.length "") then some c
          else jsFind (fun idx => q ((normalizedOf (pre ++ c :: cs)).getD idx ""))
            cs (pre.length + 1) from rfl]
    rw [hcb]
    by_cases hq : q (jsToLower c)
    · rw [if_pos hq]
      simp [List.find?, hq]
    · rw [if_neg hq]
      rw [show List.find? (fun c => q (jsToLower c)) (c :: cs)
          = List.find? (fun c => q (jsToLower c)) cs from by simp [List.find?, hq]]
      have hshape : pre ++ c :: cs = (pre ++ [c]) ++ cs := by simp
      have hlen : pre.length + 1 = (pre ++ [c]).length := by simp
      rw [hshape, hlen]
      exact ih (pre ++ [c])

/-! ### Properties of the color-seeding loop -/

theorem objInsert_fst {m : List (String × String)} {k v : String} :
    (objInsert m k v).map Prod.fst
      = if m.any (fun p => decide (p.fst = k)) then m.map Prod.fst
        else m.map Prod.fst ++ [k] := by
  unfold objInsert
  by_cases h : m.any (fun p => decide (p.fst = k))
  · rw [if_pos h, if_pos h, List.map_map]
    apply List.map_congr_left
    intro p _
    by_cases hp : p.fst = k
    · simp [hp]
    · simp [hp]
  · rw [if_neg h, if_neg h]
    simp

theorem objInsert_fst_mem {m : List (String × String)} {k v x : String} :
    x ∈ (objInsert m k v).map Prod.fst ↔ x ∈ m.map Prod.fst ∨ x = k := by
  rw [objInsert_fst]
  by_cases h : m.any (fun p => decide (p.fst = k))
  · rw [if_pos h]
    have hk : k ∈ m.map Prod.fst := by
      rcases List.any_eq_true.mp h with ⟨p, hp, hpk⟩
      simp only [decide_eq_true_eq] at hpk
      exact hpk ▸ List.mem_map_of_mem Prod.fst hp
    constructor
    · intro hx; exact Or.inl hx
    · rintro (hx | rfl)
      · exact hx
      · exact hk
  · rw [if_neg h]
    simp

theorem objInsert_fst_nodup {m : List (String × String)} {k v : String}
    (h : (m.map Prod.fst).Nodup) : ((objInsert m k v).map Prod.fst).Nodup := by
  rw [objInsert_fst]
  by_cases hany : m.any (fun p => decide (p.fst = k))
  · rwa [if_pos hany]
  · rw [if_neg hany]
    have hk : k ∉ m.map Prod.fst := by
      intro hmem
      rcases List.mem_map.mp hmem with ⟨p, hp, hpk⟩
      exact absurd (List.any_eq_true.mpr ⟨p, hp, by simp [hpk]⟩) hany
    simp only [List.nodup_append, List.nodup_cons, List.nodup_nil]
    refine ⟨h, by simp, ?_⟩
    intro a ha hk'
    simp only [List.mem_singleton] at hk'
    exact hk (hk' ▸ ha)

theorem objInsert_snd {m : List (String × String)} {k v : String}
    (h : ∀ p ∈ m, p.snd = v) : ∀ p ∈ objInsert m k v, p.snd = v := by
  intro p hp
  unfold objInsert at hp
  by_cases hany : m.any (fun q' => decide (q'.fst = k))
  · rw [if_pos hany] at hp
    rcases List.mem_map.mp hp with ⟨q', hq', hqp⟩
    by_cases hqk : q'.fst = k
    · rw [if_pos hqk] at hqp
      rw [← hqp]
    · rw [if_neg hqk] at hqp
      exact hqp ▸ h q' hq'
  · rw [if_neg hany] at hp
    rcases List.mem_append.mp hp with hq' | hq'
    · exact h p hq'
    · simp only [List.mem_singleton] at hq'
      rw [hq']

theorem seedColors_loop_spec :
    ∀ (opts : List Cell) (m : List (String × String)),
      (m.map Prod.fst).Nodup → (∀ p ∈ m, p.snd = "#000000") →
      ((List.foldl (fun acc o => objInsert acc (Cell.key o) "#000000") m opts).map
          Prod.fst).Nodup ∧
      (∀ p ∈ List.foldl (fun acc o => objInsert acc (Cell.key o) "#000000") m opts,
        p.snd = "#000000") ∧
      (∀ x, x ∈ (List.foldl (fun acc o => objInsert acc (Cell.key o) "#000000") m opts).map
          Prod.fst ↔ x ∈ m.map Prod.fst ∨ ∃ g ∈ opts, Cell.key g = x) := by
  intro opts
  induction opts with
  | nil =>
    intro m h1 h2
    refine ⟨h1, h2, ?_⟩
    intro x
    simp
  | cons o os ih =>
    intro m h1 h2
    rw [List.foldl_cons]
    have h1' := objInsert_fst_nodup (k := Cell.key o) (v := "#000000") h1
    have h2' := objInsert_snd (k := Cell.key o) (v := "#000000") h2
    obtain ⟨g1, g2, g3⟩ := ih (objInsert m (Cell.key o) "#000000") h1' h2'
    refine ⟨g1, g2, ?_⟩
    intro x
    rw [g3 x, objInsert_fst_mem]
    constructor
    · rintro ((hx | rfl) | ⟨g, hg, hgx⟩)
      · exact Or.inl hx
      · exact Or.inr ⟨o, List.mem_cons_self o os, rfl⟩
      · exact Or.inr ⟨g, List.mem_cons_of_mem o hg, hgx⟩
    · rintro (hx | ⟨g, hg, hgx⟩)
      · exact Or.inl (Or.inl hx)
      · rcases List.mem_cons.mp hg with rfl | hg'
        · exact Or.inl (Or.inr hgx.symm)
        · exact Or.inr ⟨g, hg', hgx⟩

theorem seedColors_spec (opts : List Cell) :
    ((seedColors opts).map Prod.fst).Nodup ∧
    (∀ p ∈ seedColors opts, p.snd = "#000000") ∧
    (∀ x, x ∈ (seedColors opts).map Prod.fst ↔ ∃ g ∈ opts, Cell.key g = x) := by
  unfold seedColors
  obtain ⟨h1, h2, h3⟩ := seedColors_loop_spec opts [] (by simp) (by simp)
  refine ⟨h1, h2, ?_⟩
  intro x
  rw [h3 x]
  simp

/-! ### Properties of the download filename computation -/

theorem jsSplit_ne_nil (sep : Char) : ∀ s : List Char, jsSplit sep s ≠ [] := by
  intro s
  induction s with
  | nil => simp [jsSplit]
  | cons c rest ih =>
    by_cases h : c = sep
    · simp [jsSplit, h]
    · simp only [jsSplit, if_neg h]
      cases hr : jsSplit sep rest with
      | nil => simp
      | cons p ps => simp

theorem jsSplit_append_sep (sep : Char) :
    ∀ (xs ys : List Char),
      jsSplit sep (xs ++ sep :: ys) = jsSplit sep xs ++ jsSplit sep ys := by
  intro xs ys
  induction xs with
  | nil => simp [jsSplit]
  | cons c t ih =>
    by_cases h : c = sep
    · subst h
      show jsSplit c (c :: (t ++ c :: ys)) = jsSplit c (c :: t) ++ jsSplit c ys
      simp only [jsSplit, if_pos rfl]
      rw [ih]
      rfl
    · show jsSplit sep (c :: (t ++ sep :: ys)) = jsSplit sep (c :: t) ++ jsSplit sep ys
      simp only [jsSplit, if_neg h]
      rw [ih]
      cases ht : jsSplit sep t with
      | nil => exact absurd ht (jsSplit_ne_nil sep t)
      | cons p ps => simp

theorem jsSplit_no_sep (sep : Char) :
    ∀ ys : List Char, sep ∉ ys → jsSplit sep ys = [ys] := by
  intro ys
  induction ys with
  | nil => intro _; rfl
  | cons c t ih =>
    intro h
    have hc : c ≠ sep := fun hh => h (hh ▸ List.mem_cons_self c t)
    simp only [jsSplit, if_neg hc]
    rw [ih (fun hm => h (List.mem_cons_of_mem c hm))]

theorem getLastD_append_single {α : Type} (l : List α) (a : α) :
    ∀ d : α, (l ++ [a]).getLastD d = a := by
  induction l with
  | nil => intro d; rfl
  | cons x t ih =>
    intro d
    show (x :: (t ++ [a])).getLastD d = a
    rw [List.getLastD_cons]
    exact ih x

/-! ### Claim C1 -/

/-- C1 counterexample: with category `ControlVsFn` and an empty parsed row
set, `extractGroups` returns early with an empty Group list, not the fixed
list `["Control", "Fn"]` that the claim promises for every row set including
the empty one. -/
theorem c1_counterexample :
    (extractGroups (mkSession "ControlVsFn") []).groups
      ≠ [Cell.str "Control", Cell.str "Fn"] := by
  decide

/-- C1 (amended): for every NON-EMPTY parsed row set, group inference for
categories `ControlVsFn`, `AlphaDiversity`, `BetaDiversity` and `SMDI` yields
exactly `["Control", "Fn"]`, and for category `Correlations` yields exactly
`["scatter", "line"]`, irrespective of the rows' contents; the empty row set
short-circuits to an empty Group list instead. -/
theorem c1_theorem (s : SessionState) (rows : List Row) (hne : rows ≠ []) :
    ((s.selected = "ControlVsFn" ∨ s.selected = "AlphaDiversity" ∨
        s.selected = "BetaDiversity" ∨ s.selected = "SMDI") →
      (extractGroups s rows).groups = [Cell.str "Control", Cell.str "Fn"]) ∧
    (s.selected = "Correlations" →
      (extractGroups s rows).groups = [Cell.str "scatter", Cell.str "line"]) := by
  have hlen : ¬ rows.length = 0 := by simpa using hne
  constructor
  · intro hover
    simp only [extractGroups, if_neg hlen, computeUniqueOptions, if_pos hover]
  · intro hcorr
    simp only [extractGroups, computeUniqueOptions, if_neg hlen]
    rw [hcorr]
    rw [if_neg (by decide), if_pos rfl]

/-- C1 witness: the amended theorem applied at category `ControlVsFn` and one
concrete non-empty row whose contents have nothing to do with the override. -/
theorem c1_witness :
    (extractGroups (mkSession "ControlVsFn") [[("X", Cell.str "v")]]).groups
      = [Cell.str "Control", Cell.str "Fn"] :=
  (c1_theorem _ _ (by decide)).1 (by decide)

/-! ### Claim C2 -/

/-- C2: for every non-empty row set the grouping column selected by inference
is the first column header in file order whose lowercased form is a member of
the fixed candidate set, falling back to the first column in file order when
no header matches — i.e. the code's index-based scan agrees with the spec's
filter-based description `specSelectedColumn`. -/
theorem c2_theorem (rows : List Row) (_hne : rows ≠ []) :
    selectedColumnOf rows = specSelectedColumn ((rows.headD []).map Prod.fst) := by
  unfold selectedColumnOf specSelectedColumn findSelectedColumn
  dsimp only
  have hspec := jsFind_spec (fun s => groupCandidates.contains s)
    ((rows.headD []).map Prod.fst) []
  simp only [List.nil_append, List.length_nil] at hspec
  rw [hspec, find?_eq_head?_filter]
  cases hf : ((rows.headD []).map Prod.fst).filter
      (fun c => groupCandidates.contains (jsToLower c)) with
  | nil => rfl
  | cons c t => rfl

/-- C2 witness: the theorem applied at the spec's example headers
`["Sample Name", "Value"]`, where no candidate matches and the selected column
is the first one. -/
theorem c2_witness :
    selectedColumnOf sampleNameRows
      = specSelectedColumn ((sampleNameRows.headD []).map Prod.fst) ∧
    selectedColumnOf sampleNameRows = some "Sample Name" :=
  ⟨c2_theorem _ (by decide), by decide⟩

/-! ### Claim C3 -/

/-- C3: for every non-empty row set and every category without a fixed
override, the inferred Group list consists exactly of the selected column's
truthy values (`selectedValues`), contains no duplicates, and lists them in
first-seen order (earlier groups have strictly smaller first-occurrence
indices among the values). -/
theorem c3_theorem (s : SessionState) (rows : List Row) (hne : rows ≠ [])
    (h1 : s.selected ≠ "ControlVsFn") (h2 : s.selected ≠ "AlphaDiversity")
    (h3 : s.selected ≠ "BetaDiversity") (h4 : s.selected ≠ "SMDI")
    (h5 : s.selected ≠ "Correlations") :
    (extractGroups s rows).groups.Nodup ∧
    (∀ v, v ∈ (extractGroups s rows).groups ↔ v ∈ selectedValues rows) ∧
    (extractGroups s rows).groups.Pairwise
      (fun a b => firstIdx (selectedValues rows) a < firstIdx (selectedValues rows) b) := by
  have hlen : ¬ rows.length = 0 := by simpa using hne
  have hg : (extractGroups s rows).groups = jsSetDedup (selectedValues rows) := by
    simp only [extractGroups, if_neg hlen, computeUniqueOptions]
    rw [if_neg (by simp [h1, h2, h3, h4]), if_neg h5]
  rw [hg]
  exact ⟨jsSetDedup_nodup _, fun v => jsSetDedup_mem _ v, jsSetDedup_pairwise _⟩

/-- C3 witness: the theorem applied at category `QLF` and concrete rows with a
duplicate and an empty value; the resulting Group list is `["A", "B"]`. -/
theorem c3_witness :
    (extractGroups (mkSession "QLF") dupRows).groups.Nodup ∧
    (extractGroups (mkSession "QLF") dupRows).groups = [Cell.str "A", Cell.str "B"] :=
  ⟨(c3_theorem _ _ (by decide) (by decide) (by decide) (by decide) (by decide)
      (by decide)).1,
    by decide⟩

/-! ### Claim C4 -/

/-- C4 counterexample: running inference on an empty parsed row set does not
clear the prior ColorAssignment — the early return of `extractGroups` skips
`setColors`, so the stale entry survives, contradicting the claim that the
ColorAssignment is empty afterwards regardless of its prior value. -/
theorem c4_counterexample :
    (extractGroups staleSession []).colors = [("A", "#ff0000")] ∧
    (extractGroups staleSession []).colors ≠ [] := by
  decide

/-- C4 (amended): after inference on a NON-EMPTY row set the ColorAssignment
has pairwise-distinct keys, every entry's value is "#000000", and its key set
is exactly the set of stringified Groups in the resulting list (no extra
entries); after inference on an empty row set the Group list is empty but the
ColorAssignment keeps its prior value unchanged. -/
theorem c4_theorem (s : SessionState) (rows : List Row) :
    (rows ≠ [] →
      (((extractGroups s rows).colors.map Prod.fst).Nodup ∧
        (∀ p ∈ (extractGroups s rows).colors, p.snd = "#000000") ∧
        (∀ x, x ∈ (extractGroups s rows).colors.map Prod.fst ↔
          ∃ g ∈ (extractGroups s rows).groups, Cell.key g = x))) ∧
    (rows = [] →
      (extractGroups s rows).groups = [] ∧ (extractGroups s rows).colors = s.colors) := by
  constructor
  · intro hne
    have hlen : ¬ rows.length = 0 := by simpa using hne
    have hc : (extractGroups s rows).colors
        = seedColors (computeUniqueOptions s.selected rows) := by
      simp only [extractGroups, if_neg hlen]
    have hgg : (extractGroups s rows).groups = computeUniqueOptions s.selected rows := by
      simp only [extractGroups, if_neg hlen]
    rw [hc, hgg]
    exact seedColors_spec _
  · rintro rfl
    simp [extractGroups]

/-- C4 witness: the amended theorem applied at concrete non-empty rows; the
seeded ColorAssignment is exactly one black entry per group. -/
theorem c4_witness :
    (extractGroups (mkSession "QLF") pairRows).colors
      = [("A", "#000000"), ("B", "#000000")] ∧
    (((extractGroups (mkSession "QLF") pairRows).colors.map Prod.fst).Nodup ∧
      (∀ p ∈ (extractGroups (mkSession "QLF") pairRows).colors, p.snd = "#000000") ∧
      (∀ x, x ∈ (extractGroups (mkSession "QLF") pairRows).colors.map Prod.fst ↔
        ∃ g ∈ (extractGroups (mkSession "QLF") pairRows).groups, Cell.key g = x)) :=
  ⟨by decide, (c4_theorem _ _).1 (by decide)⟩

/-! ### Claim C5 -/

/-- C5: switching the AnalysisCategory produces, in one state transition, the
state with the new category and the file, result URL, error, Group list and
ColorAssignment all cleared simultaneously — a full reset, never partial,
regardless of the prior state. -/
theorem c5_theorem (s : SessionState) (t : String) :
    switchCategory s t
      = { selected := t, file := none, imageUrl := none, error := "",
          groups := [], colors := [] } := rfl

/-! ### Claim C6 -/

/-- C6 counterexample: a failed chart request (transport error) in the rich
variant stores the generic error and clears the loading flag, but the
previously stored result URLs survive unchanged, contradicting the claim that
they are cleared. -/
theorem c6_counterexample :
    (handleCreateChartRich richPriorState FetchResult.netError 0).error ≠ "" ∧
    (handleCreateChartRich richPriorState FetchResult.netError 0).imageSvgUrl
      = some "https://bacteria-server-2.onrender.com/old.svg?t=1" ∧
    (handleCreateChartRich richPriorState FetchResult.netError 0).imageSvgUrl ≠ none := by
  refine ⟨by decide, rfl, by decide⟩

/-- C6 (amended): when a chart request has been issued (a file is present) and
fails — non-success HTTP status or transport error — the resulting state has a
non-empty error field and the loading flag cleared, while any previously
stored result URLs are left UNCHANGED rather than cleared. -/
theorem c6_theorem (s : RichState) (outcome : FetchResult RichBody) (now : Nat)
    (hf : s.file ≠ none)
    (hfail : outcome = FetchResult.netError ∨
      ∃ b, outcome = FetchResult.reply false b) :
    (handleCreateChartRich s outcome now).error ≠ "" ∧
    (handleCreateChartRich s outcome now).loading = false ∧
    (handleCreateChartRich s outcome now).imageSvgUrl = s.imageSvgUrl ∧
    (handleCreateChartRich s outcome now).imageEmfUrl = s.imageEmfUrl := by
  obtain ⟨rows, hrows⟩ := Option.ne_none_iff_exists'.mp hf
  have hstate : handleCreateChartRich s outcome now
      = { s with error := genericErrorMsg, loading := false } := by
    rcases hfail with rfl | ⟨b, rfl⟩
    · simp [handleCreateChartRich, hrows]
    · simp [handleCreateChartRich, hrows]
  rw [hstate]
  refine ⟨?_, rfl, rfl, rfl⟩
  show genericErrorMsg ≠ ""
  decide

/-- C6 witness: the amended theorem applied at a concrete session with stored
result URLs and a concrete non-success (HTTP 500-style) response. -/
theorem c6_witness :
    (handleCreateChartRich richPriorState (FetchResult.reply false none) 7).error ≠ "" ∧
    (handleCreateChartRich richPriorState (FetchResult.reply false none) 7).loading
      = false ∧
    (handleCreateChartRich richPriorState (FetchResult.reply false none) 7).imageSvgUrl
      = richPriorState.imageSvgUrl ∧
    (handleCreateChartRich richPriorState (FetchResult.reply false none) 7).imageEmfUrl
      = richPriorState.imageEmfUrl :=
  c6_theorem richPriorState (FetchResult.reply false none) 7 (by decide)
    (Or.inr ⟨none, rfl⟩)

/-! ### Claim C7 -/

/-- C7 counterexample: the legacy `handleAskBE` flow performs no `res.ok`
check, so a non-success HTTP response whose body parses as JSON is NOT treated
as a failure: it stores a result URL built from the body and leaves the error
field empty, contradicting the claim of a uniform opaque failure with no
stored data. -/
theorem c7_counterexample :
    (handleAskBE oldPriorState
        (FetchResult.reply false (some { img := some "/outputs/x.svg" }))).imageUrl
      = some "https://bacteria-server.onrender.com/outputs/x.svg" ∧
    (handleAskBE oldPriorState
        (FetchResult.reply false (some { img := some "/outputs/x.svg" }))).error
      = "" := by
  exact ⟨rfl, rfl⟩

/-- C7 (amended): the `handleCreateChart` flow (the variants with the `res.ok`
check) treats every non-success HTTP status — whatever the parsed body — and
every transport failure uniformly: both produce the identical resulting state
whose only change is the fixed generic error message, so no partial result
data is stored.  The legacy `handleAskBE` flow lacks the status check and does
not share this property. -/
theorem c7_theorem (s : SessionState) (b : Option RespBody) (now : Nat)
    (hf : s.file ≠ none) :
    handleCreateChart s FetchResult.netError now = { s with error := genericErrorMsg } ∧
    handleCreateChart s (FetchResult.reply false b) now
      = { s with error := genericErrorMsg } := by
  obtain ⟨rows, hrows⟩ := Option.ne_none_iff_exists'.mp hf
  constructor
  · simp [handleCreateChart, hrows]
  · simp [handleCreateChart, hrows]

/-- C7 witness: the amended theorem applied at a concrete loaded session and a
concrete non-success response carrying a parseable body. -/
theorem c7_witness :
    handleCreateChart loadedSession FetchResult.netError 3
      = { loadedSession with error := genericErrorMsg } ∧
    handleCreateChart loadedSession
        (FetchResult.reply false (some { img := some "/outputs/x.svg" })) 3
      = { loadedSession with error := genericErrorMsg } :=
  c7_theorem loadedSession (some { img := some "/outputs/x.svg" }) 3 (by decide)

/-! ### Claim C8 -/

/-- C8 counterexample: uploading a file while a result URL from an earlier
request is stored leaves that URL in place — `handleFileChange` never touches
it — contradicting the claim that the post-upload state has no result URLs. -/
theorem c8_counterexample :
    (handleFileChange resultSession (some [[("Group", Cell.str "A")]])).imageUrl
      = some "https://bacteria-server.onrender.com/old.svg?t=1" ∧
    (handleFileChange resultSession (some [[("Group", Cell.str "A")]])).imageUrl
      ≠ none := by
  refine ⟨rfl, by decide⟩

/-- C8 (amended): an upload event carrying a file stores the file, clears the
error, keeps the category, and synchronously runs group inference as part of
the transition (populating groups and colors from the parsed rows, with the
empty-rows early return leaving colors untouched); any previously stored
result URL is left UNCHANGED rather than cleared. -/
theorem c8_theorem (s : SessionState) (rows : List Row) :
    (handleFileChange s (some rows)).file = some rows ∧
    (handleFileChange s (some rows)).error = "" ∧
    (handleFileChange s (some rows)).selected = s.selected ∧
    (handleFileChange s (some rows)).imageUrl = s.imageUrl ∧
    (rows ≠ [] →
      (handleFileChange s (some rows)).groups = computeUniqueOptions s.selected rows ∧
      (handleFileChange s (some rows)).colors
        = seedColors (computeUniqueOptions s.selected rows)) ∧
    (rows = [] →
      (handleFileChange s (some rows)).groups = [] ∧
      (handleFileChange s (some rows)).colors = s.colors) := by
  by_cases hrow : rows = []
  · subst hrow
    refine ⟨rfl, rfl, rfl, rfl, fun h => absurd rfl h, fun _ => ⟨rfl, rfl⟩⟩
  · have hlen : ¬ rows.length = 0 := by simpa using hrow
    refine ⟨?_, ?_, ?_, ?_, fun _ => ⟨?_, ?_⟩, fun h => absurd h hrow⟩ <;>
      simp only [handleFileChange, extractGroups, if_neg hlen]

/-- C8 witness: the amended theorem applied at a session holding a result URL
and concrete non-empty rows. -/
theorem c8_witness :
    (handleFileChange resultSession (some pairRows)).file = some pairRows ∧
    (handleFileChange resultSession (some pairRows)).error = "" ∧
    (handleFileChange resultSession (some pairRows)).selected
      = resultSession.selected ∧
    (handleFileChange resultSession (some pairRows)).imageUrl
      = resultSession.imageUrl ∧
    (pairRows ≠ [] →
      (handleFileChange resultSession (some pairRows)).groups
        = computeUniqueOptions resultSession.selected pairRows ∧
      (handleFileChange resultSession (some pairRows)).colors
        = seedColors (computeUniqueOptions resultSession.selected pairRows)) ∧
    (pairRows = [] →
      (handleFileChange resultSession (some pairRows)).groups = [] ∧
      (handleFileChange resultSession (some pairRows)).colors
        = resultSession.colors) :=
  c8_theorem resultSession pairRows

/-! ### Claim C9 -/

/-- C9 counterexample: for an artifact URL carrying the cache-busting query
parameter the code appends after the extension, the saved filename is
`chart.svg?t=17`, not the `chart.svg` the claim's trailing-path-segment rule
dictates — `split('.').pop()` keeps everything after the last dot of the whole
URL, query string included. -/
theorem c9_counterexample :
    handleDownloadRich "https://bacteria-server-2.onrender.com/out.svg?t=17".toList
      ≠ some "chart.svg".toList ∧
    handleDownloadRich "https://bacteria-server-2.onrender.com/out.svg?t=17".toList
      = some "chart.svg?t=17".toList := by
  refine ⟨by decide, rfl⟩

/-- C9 (amended): the rich variant's download action saves under
`chart.<extension>` where `<extension>` is the substring after the LAST dot of
the whole URL (domain dots and query string included, so a cache-busting
suffix ends up in the filename), and the "svg" default applies only when that
substring is empty, i.e. when the URL ends in a dot; the `src/src/App.tsx`
variant instead always saves under the constant name `chart.svg`. -/
theorem c9_theorem :
    (∀ pre ext : List Char, '.' ∉ ext → ext ≠ [] →
      handleDownloadRich (pre ++ '.' :: ext) = some ("chart.".toList ++ ext)) ∧
    (∀ pre : List Char, handleDownloadRich (pre ++ ['.']) = some "chart.svg".toList) ∧
    (∀ url : String, handleDownloadSimple (some url) = some "chart.svg") := by
  refine ⟨?_, ?_, fun url => rfl⟩
  · intro pre ext hdot hne
    have hurl : pre ++ '.' :: ext ≠ [] := by simp
    have hsplit : jsSplit '.' (pre ++ '.' :: ext) = jsSplit '.' pre ++ [ext] := by
      rw [jsSplit_append_sep, jsSplit_no_sep '.' ext hdot]
    unfold handleDownloadRich downloadFilename downloadExtension
    rw [if_neg hurl, hsplit, getLastD_append_single, if_neg hne]
  · intro pre
    have hurl : pre ++ ['.'] ≠ [] := by simp
    have hsplit : jsSplit '.' (pre ++ ['.']) = jsSplit '.' pre ++ [[]] := by
      rw [show (['.'] : List Char) = '.' :: [] from rfl, jsSplit_append_sep]
      rfl
    unfold handleDownloadRich downloadFilename downloadExtension
    rw [if_neg hurl, hsplit, getLastD_append_single, if_pos rfl]
    decide

/-- C9 witness: the amended theorem applied at a concrete URL with a clean
`svg` extension and at a concrete URL ending in a dot. -/
theorem c9_witness :
    handleDownloadRich ("https://host/out".toList ++ '.' :: "svg".toList)
      = some ("chart.".toList ++ "svg".toList) ∧
    handleDownloadRich ("https://host/out".toList ++ ['.'])
      = some "chart.svg".toList :=
  ⟨c9_theorem.1 "https://host/out".toList "svg".toList (by decide) (by decide),
    c9_theorem.2.1 "https://host/out".toList⟩

/-! ### Claim C10 -/

/-- C10: a change event on the upload input that carries no file clears the
error field unconditionally and leaves every other session-state field — file,
Group list, ColorAssignment, result URL and category — unchanged. -/
theorem c10_theorem (s : SessionState) :
    handleFileChange s none = { s with error := "" } := rfl

end Bacteria
